import Mathlib

/-!
Shallow embedding of the RLP decoding core of `src/rlp/parse.go`
(package `rlp`): the functions `BeInt`, `ParsePrefix`, `U64`, `U256`,
`ParseHash` and `ensureEnoughSize`, together with theorems about them.

Modelling conventions:
* A byte buffer is a `List Nat`; well-formedness (`every byte < 256`) is an
  explicit hypothesis where it matters.
* Go's `int` is a 64-bit two's-complement machine integer; it is modelled as
  `Int` with an explicit reduction `wrap64` into `[-2^63, 2^63)` at every
  operation that can overflow.  `uint64` is modelled as `Nat` with an explicit
  `% 2^64`.
* A Go runtime panic (index or slice out of range) is modelled by the
  distinguished outcome `Err.oob` (for `ParseHash`, which returns its error
  as an ordinary value, by the outcome `none`).  The capacity of the input
  buffer is taken to be its length.
* A Go byte-slice header is modelled by `GoSlice`: an identity tag for the
  backing array (`id`), the slice length (`len`) and the contents of the whole
  backing array (`arr`, whose length is the capacity).  Allocation of a fresh
  backing array (`make`) consumes an explicitly passed fresh tag, and the one
  heap write (`copy` inside `ParseHash`) is made visible by also returning the
  caller's slice as it looks after the call (explicit state passing).
-/

set_option maxRecDepth 4000

namespace Rlp

/-- Reduction of an unbounded integer into the range of a 64-bit
two's-complement machine integer `[-2^63, 2^63)`. -/
def wrap64 (x : Int) : Int := (x + 2 ^ 63) % 2 ^ 64 - 2 ^ 63

/-- One step of the accumulation loop of Go `BeInt`:
`r = (r << 8) | int(b)` on a 64-bit `int`.  The shifted value has a zero low
byte in two's complement, so for a byte `b < 256` the bitwise or coincides
with addition. -/
def beStep (r : Int) (b : Nat) : Int := wrap64 (r * 256) + (b : Int)

/-- The accumulation loop of Go `BeInt` over a byte window. -/
def beFold (bytes : List Nat) : Int := bytes.foldl beStep 0

/-- The mathematical (unbounded) big-endian value of a byte window,
`result = result*256 + byte`. -/
def beVal (bytes : List Nat) : Nat := bytes.foldl (fun r b => r * 256 + b) 0

/-- The distinct failure outcomes of the decoder, one constructor per
`fmt.Errorf` site of `src/rlp/parse.go`, plus `oob`, which models a Go
runtime panic (index or slice out of range), not a returned error. -/
inductive Err : Type where
  | oob : Err
  | leadingZero : Err
  | notString : Err
  | endOfPayload : Err
  | tooLarge : Err
  | hashWrap : Err → Err
  | hashNotString : Err
  | hashEndOfPayload : Err
  | hashLen : Err
deriving DecidableEq

instance {ε α : Type} [DecidableEq ε] [DecidableEq α] : DecidableEq (Except ε α) := fun x y =>
  match x, y with
  | .ok a, .ok b =>
    if h : a = b then isTrue (congrArg Except.ok h)
    else isFalse fun hc => h (by cases hc; rfl)
  | .error a, .error b =>
    if h : a = b then isTrue (congrArg Except.error h)
    else isFalse fun hc => h (by cases hc; rfl)
  | .ok _, .error _ => isFalse fun hc => Except.noConfusion hc
  | .error _, .ok _ => isFalse fun hc => Except.noConfusion hc

/-- Embedding of Go `BeInt(payload, pos, length)`: parses the big-endian
representation of an integer from `payload` at `pos`.  The leading-zero error
branch formats its message from the slice `payload[pos:pos+length]`, which
itself panics when out of range; hence the inner bounds test. -/
def BeInt (payload : List Nat) (pos length : Nat) : Except Err Int :=
  if 0 < length then
    if pos < payload.length then
      if payload.getD pos 0 = 0 then
        if pos + length ≤ payload.length then .error .leadingZero
        else .error .oob
      else
        if pos + length ≤ payload.length then
          .ok (beFold ((payload.drop pos).take length))
        else .error .oob
    else .error .oob
  else
    if pos ≤ payload.length then .ok 0 else .error .oob

/-- Embedding of Go `ParsePrefix(payload, pos)` (renamed, keeping the source
name free of a reserved suffix): classifies the leading byte
`payload[pos]` and returns `(prefixLen, dataLen, isList)`, where `prefixLen`
is the offset at which the payload begins and `dataLen` the payload length
(a 64-bit Go `int`, hence `Int` here). -/
def PrefixParse (payload : List Nat) (pos : Nat) : Except Err (Nat × Int × Bool) :=
  if pos < payload.length then
    if payload.getD pos 0 < 128 then
      .ok (pos, 1, false)
    else if payload.getD pos 0 < 184 then
      .ok (pos + 1, (payload.getD pos 0 : Int) - 128, false)
    else if payload.getD pos 0 < 192 then
      match BeInt payload (pos + 1) (payload.getD pos 0 - 183) with
      | .error e => .error e
      | .ok dataLen => .ok (pos + 1 + (payload.getD pos 0 - 183), dataLen, false)
    else if payload.getD pos 0 < 248 then
      .ok (pos + 1, (payload.getD pos 0 : Int) - 192, true)
    else
      match BeInt payload (pos + 1) (payload.getD pos 0 - 247) with
      | .error e => .error e
      | .ok dataLen => .ok (pos + 1 + (payload.getD pos 0 - 247), dataLen, true)
  else .error .oob

/-- One step of the accumulation loop of Go `U64`:
`r = (r << 8) | uint64(b)` on a `uint64`; as in `beStep`, or is addition for
a byte `b < 256`. -/
def u64Step (r b : Nat) : Nat := r * 256 % 2 ^ 64 + b

/-- The accumulation loop of Go `U64` over the payload window. -/
def u64Fold (bytes : List Nat) : Nat := bytes.foldl u64Step 0

/-- Embedding of Go `U64(payload, pos)`: parses a uint64 from `payload` at
`pos`, returning the new position and the value.  Note the strict-or-equal
bound `prefixLen+dataLen >= len(payload)` of the source. -/
def U64 (payload : List Nat) (pos : Nat) : Except Err (Nat × Nat) :=
  match PrefixParse payload pos with
  | .error e => .error e
  | .ok (prefixLen, dataLen, isList) =>
    if isList then .error .notString
    else if (payload.length : Int) ≤ (prefixLen : Int) + dataLen then .error .endOfPayload
    else if 8 < dataLen then .error .tooLarge
    else if 0 < dataLen ∧ payload.getD prefixLen 0 = 0 then .error .leadingZero
    else if dataLen < 0 then .error .oob
    else .ok (prefixLen + dataLen.toNat, u64Fold ((payload.drop prefixLen).take dataLen.toNat))

/-- Embedding of Go `U256(payload, pos, x)`: parses a uint256 from `payload`
at `pos`.  The output parameter `x.SetBytes(window)` is modelled by returning
the big-endian value of the window (at most 32 bytes, so no reduction is
needed for well-formed byte buffers).  Note the strict bound
`prefixLen+dataLen > len(payload)` of the source, unlike `U64`. -/
def U256 (payload : List Nat) (pos : Nat) : Except Err (Nat × Nat) :=
  match PrefixParse payload pos with
  | .error e => .error e
  | .ok (prefixLen, dataLen, isList) =>
    if isList then .error .notString
    else if (payload.length : Int) < (prefixLen : Int) + dataLen then .error .endOfPayload
    else if 32 < dataLen then .error .tooLarge
    else if 0 < dataLen ∧ payload.getD prefixLen 0 = 0 then .error .leadingZero
    else if dataLen < 0 then .error .oob
    else .ok (prefixLen + dataLen.toNat, beVal ((payload.drop prefixLen).take dataLen.toNat))

/-- A Go byte-slice header: identity tag of the backing array, slice length,
and the full contents of the backing array (whose length is the capacity). -/
structure GoSlice : Type where
  id : Nat
  len : Nat
  arr : List Nat
deriving DecidableEq

/-- Go `cap` of a slice. -/
def GoSlice.cap (s : GoSlice) : Nat := s.arr.length

/-- The bytes a slice exposes: the first `len` bytes of its backing array. -/
def GoSlice.data (s : GoSlice) : List Nat := s.arr.take s.len

/-- Embedding of Go `ensureEnoughSize(in, size)`: a fresh `size`-byte buffer
when the capacity is insufficient (the fresh backing array carries the
explicitly supplied tag `freshId`), otherwise the same buffer re-sliced to
`in[:size]`. -/
def ensureEnoughSize (s : GoSlice) (size : Nat) (freshId : Nat) : GoSlice :=
  if s.arr.length < size then ⟨freshId, size, List.replicate size 0⟩
  else ⟨s.id, size, s.arr⟩

/-- Embedding of Go `copy(dst, src)`: writes `min (len dst) (len src)` bytes
of `src` into the front of `dst`'s backing array. -/
def copyBytes (dst : GoSlice) (src : List Nat) : GoSlice :=
  ⟨dst.id, dst.len, src.take (min dst.len src.length) ++ dst.arr.drop (min dst.len src.length)⟩

/-- Embedding of Go `ParseHash(payload, pos, hashbuf)`.  The result `none`
models a runtime panic propagating out of the prefix parse; a normal return
is `some (returned buffer or nil, returned position, returned error,
the caller's hashbuf as the call leaves it)`.  The last component makes the
single heap write (the `copy` through a reused backing array) explicit:
the caller's slice header is passed by value and never changes, but its
backing array is overwritten exactly when it was reused. -/
def ParseHash (payload : List Nat) (pos : Nat) (hashbuf : GoSlice) (freshId : Nat) :
    Option (Option GoSlice × Nat × Option Err × GoSlice) :=
  match PrefixParse payload pos with
  | .error .oob => none
  | .error e => some (none, 0, some (.hashWrap e), hashbuf)
  | .ok (prefixLen, dataLen, isList) =>
    if isList then some (none, 0, some .hashNotString, hashbuf)
    else if (payload.length : Int) < (prefixLen : Int) + dataLen then
      some (none, 0, some .hashEndOfPayload, hashbuf)
    else if dataLen ≠ 32 then some (none, 0, some .hashLen, hashbuf)
    else
      let buf := copyBytes (ensureEnoughSize hashbuf 32 freshId)
        ((payload.drop prefixLen).take 32)
      let after := if 32 ≤ hashbuf.arr.length then { hashbuf with arr := buf.arr } else hashbuf
      some (some buf, prefixLen + 32, none, after)

theorem wrap64_emod (a : Int) : wrap64 a % 2 ^ 64 = a % 2 ^ 64 := by
  unfold wrap64; omega

theorem wrap64_eq_of_emod {a b : Int} (h : a % 2 ^ 64 = b % 2 ^ 64) :
    wrap64 a = wrap64 b := by
  unfold wrap64; omega

theorem wrap64_self {a : Int} (h1 : -(2 ^ 63) ≤ a) (h2 : a < 2 ^ 63) : wrap64 a = a := by
  unfold wrap64; omega

theorem wrap64_lb (a : Int) : -(2 ^ 63) ≤ wrap64 a := by
  unfold wrap64; omega

theorem wrap64_ub (a : Int) : wrap64 a < 2 ^ 63 := by
  unfold wrap64; omega

theorem wrap64_mul256_mod (x : Int) : wrap64 (x * 256) % 256 = 0 := by
  unfold wrap64; omega

/-- The ideal (non-wrapping) run of the `BeInt` accumulation from a given
accumulator value. -/
def beAcc (x : Int) (l : List Nat) : Int :=
  l.foldl (fun (r : Int) (b : Nat) => r * 256 + (b : Int)) x

theorem beStep_wrap (x : Int) (b : Nat) (hb : b < 256) :
    beStep (wrap64 x) b = wrap64 (x * 256 + b) := by
  have h1 : wrap64 (wrap64 x * 256) = wrap64 (x * 256) := by
    refine wrap64_eq_of_emod ?_
    rw [Int.mul_emod, wrap64_emod, ← Int.mul_emod]
  have hy1 := wrap64_lb (x * 256)
  have hy2 := wrap64_ub (x * 256)
  have hy3 := wrap64_mul256_mod x
  have hmod := wrap64_emod (x * 256)
  have h2 : wrap64 (wrap64 (x * 256) + (b : Int)) = wrap64 (x * 256 + (b : Int)) :=
    wrap64_eq_of_emod (by omega)
  calc beStep (wrap64 x) b
      = wrap64 (wrap64 x * 256) + (b : Int) := rfl
    _ = wrap64 (x * 256) + (b : Int) := by rw [h1]
    _ = wrap64 (wrap64 (x * 256) + (b : Int)) := (wrap64_self (by omega) (by omega)).symm
    _ = wrap64 (x * 256 + (b : Int)) := h2

theorem beFold_from (l : List Nat) :
    ∀ x : Int, (∀ b ∈ l, b < 256) →
      l.foldl beStep (wrap64 x) = wrap64 (beAcc x l) := by
  induction l with
  | nil => intro x _; simp [List.foldl, beAcc]
  | cons b t ih =>
    intro x hb
    simp only [List.foldl, beAcc]
    rw [beStep_wrap x b (hb b (List.mem_cons_self b t))]
    exact ih (x * 256 + b) (fun y hy => hb y (List.mem_cons_of_mem b hy))

theorem beVal_cast (l : List Nat) :
    ∀ r : Nat, ((l.foldl (fun r b => r * 256 + b) r : Nat) : Int) = beAcc (r : Nat) l := by
  induction l with
  | nil => intro r; simp [List.foldl, beAcc]
  | cons b t ih =>
    intro r
    simp only [List.foldl, beAcc] at ih ⊢
    rw [ih (r * 256 + b)]
    push_cast
    rfl

theorem beFold_eq_wrap64 (l : List Nat) (hb : ∀ b ∈ l, b < 256) :
    beFold l = wrap64 ((beVal l : Nat) : Int) := by
  unfold beFold
  have h0 : (0 : Int) = wrap64 0 := by decide
  rw [h0, beFold_from l 0 hb]
  have hc := beVal_cast l 0
  simp only [Nat.cast_zero] at hc
  rw [← hc]
  rfl

theorem beVal_acc_lt :
    ∀ (l : List Nat) (r : Nat), (∀ b ∈ l, b < 256) →
      l.foldl (fun r b => r * 256 + b) r < (r + 1) * 256 ^ l.length := by
  intro l
  induction l with
  | nil =>
    intro r _
    simp only [List.foldl, List.length_nil, Nat.pow_zero, Nat.mul_one]
    omega
  | cons b t ih =>
    intro r hb
    simp only [List.foldl, List.length_cons]
    have h1 := ih (r * 256 + b) (fun y hy => hb y (List.mem_cons_of_mem b hy))
    have hblt : b < 256 := hb b (List.mem_cons_self b t)
    calc t.foldl (fun r b => r * 256 + b) (r * 256 + b)
        < (r * 256 + b + 1) * 256 ^ t.length := h1
      _ ≤ ((r + 1) * 256) * 256 ^ t.length :=
          Nat.mul_le_mul_right _ (by omega)
      _ = (r + 1) * 256 ^ (t.length + 1) := by ring

theorem beVal_lt (l : List Nat) (hb : ∀ b ∈ l, b < 256) :
    beVal l < 256 ^ l.length := by
  have h := beVal_acc_lt l 0 hb
  simp only [Nat.zero_add, Nat.one_mul] at h
  exact h

theorem beFold_eq_of_small (l : List Nat) (hb : ∀ b ∈ l, b < 256)
    (hv : beVal l < 2 ^ 63) : beFold l = ((beVal l : Nat) : Int) := by
  rw [beFold_eq_wrap64 l hb]
  refine wrap64_self (by omega) ?_
  exact_mod_cast hv

theorem mem_of_mem_window {payload : List Nat} {pos n b : Nat}
    (hb : b ∈ (payload.drop pos).take n) : b ∈ payload :=
  List.mem_of_mem_drop (List.mem_of_mem_take hb)

theorem getD_mem {payload : List Nat} {pos : Nat} (h : pos < payload.length) :
    payload.getD pos 0 ∈ payload := by
  rw [List.getD_eq_getElem _ _ h]
  exact List.getElem_mem h

theorem pp_single {payload : List Nat} {pos : Nat} (h : pos < payload.length)
    (hb : payload.getD pos 0 < 128) : PrefixParse payload pos = .ok (pos, 1, false) := by
  unfold PrefixParse
  rw [if_pos h, if_pos hb]

theorem pp_short_str {payload : List Nat} {pos : Nat} (h : pos < payload.length)
    (h1 : 128 ≤ payload.getD pos 0) (h2 : payload.getD pos 0 < 184) :
    PrefixParse payload pos = .ok (pos + 1, (payload.getD pos 0 : Int) - 128, false) := by
  unfold PrefixParse
  rw [if_pos h, if_neg (by omega), if_pos h2]

theorem pp_long_str {payload : List Nat} {pos : Nat} (h : pos < payload.length)
    (h1 : 184 ≤ payload.getD pos 0) (h2 : payload.getD pos 0 < 192) {v : Int}
    (hbe : BeInt payload (pos + 1) (payload.getD pos 0 - 183) = .ok v) :
    PrefixParse payload pos = .ok (pos + 1 + (payload.getD pos 0 - 183), v, false) := by
  unfold PrefixParse
  rw [if_pos h, if_neg (by omega), if_neg (by omega), if_pos h2, hbe]

theorem pp_short_list {payload : List Nat} {pos : Nat} (h : pos < payload.length)
    (h1 : 192 ≤ payload.getD pos 0) (h2 : payload.getD pos 0 < 248) :
    PrefixParse payload pos = .ok (pos + 1, (payload.getD pos 0 : Int) - 192, true) := by
  unfold PrefixParse
  rw [if_pos h, if_neg (by omega), if_neg (by omega), if_neg (by omega), if_pos h2]

theorem pp_long_list {payload : List Nat} {pos : Nat} (h : pos < payload.length)
    (h1 : 248 ≤ payload.getD pos 0) {v : Int}
    (hbe : BeInt payload (pos + 1) (payload.getD pos 0 - 247) = .ok v) :
    PrefixParse payload pos = .ok (pos + 1 + (payload.getD pos 0 - 247), v, true) := by
  unfold PrefixParse
  rw [if_pos h, if_neg (by omega), if_neg (by omega), if_neg (by omega), if_neg (by omega), hbe]

theorem BeInt_ok_inv {payload : List Nat} {pos length : Nat} {v : Int}
    (h : BeInt payload pos length = .ok v) :
    (0 < length ∧ pos + length ≤ payload.length ∧ payload.getD pos 0 ≠ 0 ∧
      v = beFold ((payload.drop pos).take length)) ∨
    (length = 0 ∧ v = 0) := by
  unfold BeInt at h
  by_cases h0 : 0 < length
  · rw [if_pos h0] at h
    by_cases hp : pos < payload.length
    · rw [if_pos hp] at h
      by_cases hz : payload.getD pos 0 = 0
      · rw [if_pos hz] at h
        by_cases hin : pos + length ≤ payload.length
        · rw [if_pos hin] at h; exact Except.noConfusion h
        · rw [if_neg hin] at h; exact Except.noConfusion h
      · rw [if_neg hz] at h
        by_cases hin : pos + length ≤ payload.length
        · rw [if_pos hin] at h
          exact .inl ⟨h0, hin, hz, (Except.ok.inj h).symm⟩
        · rw [if_neg hin] at h; exact Except.noConfusion h
    · rw [if_neg hp] at h; exact Except.noConfusion h
  · rw [if_neg h0] at h
    by_cases hin : pos ≤ payload.length
    · rw [if_pos hin] at h; exact .inr ⟨by omega, (Except.ok.inj h).symm⟩
    · rw [if_neg hin] at h; exact Except.noConfusion h

theorem pp_ok_cases {payload : List Nat} {pos p : Nat} {d : Int} {l : Bool}
    (h : PrefixParse payload pos = .ok (p, d, l)) :
    pos < payload.length ∧
    ((payload.getD pos 0 < 128 ∧ p = pos ∧ d = 1 ∧ l = false) ∨
     (128 ≤ payload.getD pos 0 ∧ payload.getD pos 0 < 184 ∧
       p = pos + 1 ∧ d = (payload.getD pos 0 : Int) - 128 ∧ l = false) ∨
     (184 ≤ payload.getD pos 0 ∧ payload.getD pos 0 < 192 ∧
       p = pos + 1 + (payload.getD pos 0 - 183) ∧
       BeInt payload (pos + 1) (payload.getD pos 0 - 183) = .ok d ∧ l = false) ∨
     (192 ≤ payload.getD pos 0 ∧ payload.getD pos 0 < 248 ∧
       p = pos + 1 ∧ d = (payload.getD pos 0 : Int) - 192 ∧ l = true) ∨
     (248 ≤ payload.getD pos 0 ∧
       p = pos + 1 + (payload.getD pos 0 - 247) ∧
       BeInt payload (pos + 1) (payload.getD pos 0 - 247) = .ok d ∧ l = true)) := by
  unfold PrefixParse at h
  by_cases hp : pos < payload.length
  · rw [if_pos hp] at h
    refine ⟨hp, ?_⟩
    by_cases h1 : payload.getD pos 0 < 128
    · rw [if_pos h1] at h
      have e := Except.ok.inj h
      exact .inl ⟨h1, (congrArg Prod.fst e).symm, (congrArg (fun q => q.2.1) e).symm,
        (congrArg (fun q => q.2.2) e).symm⟩
    · rw [if_neg h1] at h
      by_cases h2 : payload.getD pos 0 < 184
      · rw [if_pos h2] at h
        have e := Except.ok.inj h
        exact .inr (.inl ⟨by omega, h2, (congrArg Prod.fst e).symm,
          (congrArg (fun q => q.2.1) e).symm, (congrArg (fun q => q.2.2) e).symm⟩)
      · rw [if_neg h2] at h
        by_cases h3 : payload.getD pos 0 < 192
        · rw [if_pos h3] at h
          cases hbe : BeInt payload (pos + 1) (payload.getD pos 0 - 183) with
          | error e => rw [hbe] at h; exact Except.noConfusion h
          | ok v =>
            rw [hbe] at h
            have e := Except.ok.inj h
            have ed : v = d := congrArg (fun q => q.2.1) e
            exact .inr (.inr (.inl ⟨by omega, h3, (congrArg Prod.fst e).symm,
              congrArg Except.ok ed, (congrArg (fun q => q.2.2) e).symm⟩))
        · rw [if_neg h3] at h
          by_cases h4 : payload.getD pos 0 < 248
          · rw [if_pos h4] at h
            have e := Except.ok.inj h
            exact .inr (.inr (.inr (.inl ⟨by omega, h4, (congrArg Prod.fst e).symm,
              (congrArg (fun q => q.2.1) e).symm, (congrArg (fun q => q.2.2) e).symm⟩)))
          · rw [if_neg h4] at h
            cases hbe : BeInt payload (pos + 1) (payload.getD pos 0 - 247) with
            | error e => rw [hbe] at h; exact Except.noConfusion h
            | ok v =>
              rw [hbe] at h
              have e := Except.ok.inj h
              have ed : v = d := congrArg (fun q => q.2.1) e
              exact .inr (.inr (.inr (.inr ⟨by omega, (congrArg Prod.fst e).symm,
                congrArg Except.ok ed, (congrArg (fun q => q.2.2) e).symm⟩)))
  · rw [if_neg hp] at h; exact Except.noConfusion h

/-- C1: on the buffer `[0x81, 0x07]` the payload window `[1, 2)` fits the
buffer exactly (`headerEnd + payloadLength = 2 = length`), so by the claim
neither typed scalar decoder may fail the end-of-payload check; `U256` indeed
accepts, but `U64` rejects with "unexpected end of payload" because its bound
in the source is `>=` rather than `>`. -/
theorem u64_rejects_exact_fit_u256_accepts :
    U64 [129, 7] 0 = .error .endOfPayload ∧ U256 [129, 7] 0 = .ok (2, 7) := by
  constructor <;> decide

/-- C2: decoding the one-byte buffer `[0x80]` as U64 does not succeed with
`(1, 0)` as the claim states; the `>=` end-of-payload bound of the source
(`1 + 0 >= 1`) rejects it with "unexpected end of payload". -/
theorem u64_0x80_fails_endOfPayload : U64 [128] 0 = .error .endOfPayload := by
  decide

/-- C3: for every buffer and in-bounds position, `ParsePrefix` classifies the
leading byte `first` into exactly one of five regimes, total over `[0, 256)`:
`[0,128)` string with `headerEnd = position`, `payloadLength = 1`;
`[128,184)` string with `headerEnd = position+1`, `payloadLength = first-128`;
`[184,192)` string with `beLen = first-183`, `headerEnd = position+1+beLen`,
`payloadLength` the big-endian integer of the `beLen` bytes after the first;
`[192,248)` list with `headerEnd = position+1`, `payloadLength = first-192`;
`[248,256)` list with `beLen = first-247`, `headerEnd = position+1+beLen`,
`payloadLength` the big-endian integer of the `beLen` bytes after the first. -/
theorem prefixParse_five_regimes (payload : List Nat) (pos : Nat)
    (h : pos < payload.length) (_hbyte : payload.getD pos 0 < 256) :
    (payload.getD pos 0 < 128 → PrefixParse payload pos = .ok (pos, 1, false)) ∧
    (128 ≤ payload.getD pos 0 → payload.getD pos 0 < 184 →
      PrefixParse payload pos = .ok (pos + 1, (payload.getD pos 0 : Int) - 128, false)) ∧
    (184 ≤ payload.getD pos 0 → payload.getD pos 0 < 192 → ∀ v : Int,
      BeInt payload (pos + 1) (payload.getD pos 0 - 183) = .ok v →
      PrefixParse payload pos = .ok (pos + 1 + (payload.getD pos 0 - 183), v, false)) ∧
    (192 ≤ payload.getD pos 0 → payload.getD pos 0 < 248 →
      PrefixParse payload pos = .ok (pos + 1, (payload.getD pos 0 : Int) - 192, true)) ∧
    (248 ≤ payload.getD pos 0 → payload.getD pos 0 < 256 → ∀ v : Int,
      BeInt payload (pos + 1) (payload.getD pos 0 - 247) = .ok v →
      PrefixParse payload pos = .ok (pos + 1 + (payload.getD pos 0 - 247), v, true)) :=
  ⟨fun h1 => pp_single h h1,
   fun h1 h2 => pp_short_str h h1 h2,
   fun h1 h2 _ hv => pp_long_str h h1 h2 hv,
   fun h1 h2 => pp_short_list h h1 h2,
   fun h1 _ _ hv => pp_long_list h h1 hv⟩

/-- Witness for C3: a long-string element, leading byte `0xB9`,
two-byte length field `0x0100 = 256`. -/
theorem prefixParse_five_regimes_witness :
    PrefixParse [185, 1, 0] 0 = .ok (3, 256, false) :=
  (prefixParse_five_regimes [185, 1, 0] 0 (by decide) (by decide)).2.2.1
    (by decide) (by decide) 256 (by decide)

/-- C5: decoding `[0x82, 0x00, 0x01]` as U64 does not fail with the
leading-zero (NonCanonicalInteger) error the claim requires: the `>=`
end-of-payload bound of the source fires first (`1 + 2 >= 3`).  Extending the
buffer by one byte lets the leading-zero check fire as the claim expects. -/
theorem u64_0x820001_fails_endOfPayload_first :
    U64 [130, 0, 1] 0 = .error .endOfPayload ∧
    U64 [130, 0, 1, 7] 0 = .error .leadingZero := by
  constructor <;> decide

/-- C4 counterexample: on eight `0xFF` bytes `BeInt` succeeds but returns
`-1` (the 64-bit signed accumulator wraps), not the big-endian unsigned
value `2^64 - 1` of those bytes. -/
theorem beInt_wraps_negative_on_8_bytes :
    BeInt [255, 255, 255, 255, 255, 255, 255, 255] 0 8 = .ok (-1) ∧
    beVal [255, 255, 255, 255, 255, 255, 255, 255] = 2 ^ 64 - 1 := by
  constructor <;> decide

/-- C6 counterexample: `ParsePrefix` succeeds on the long-string element
`[0xBF, 0xFF × 8]` with `payloadLength = -1 < 0`: the 8-byte big-endian
length field `2^64 - 1` wraps the 64-bit signed accumulator. -/
theorem prefixParse_negative_dataLen :
    PrefixParse [191, 255, 255, 255, 255, 255, 255, 255, 255] 0 = .ok (9, -1, false) ∧
    (-1 : Int) < 0 := by
  constructor <;> decide

/-- C4 (amended): for an in-bounds window of a well-formed byte buffer,
`BeInt` fails exactly when `length > 0` and the first window byte is zero;
an empty window yields `0`; and on success it returns the big-endian value of
the window reduced into a signed 64-bit integer — equal to the unsigned
big-endian value whenever that value is below `2^63`. -/
theorem beInt_characterization (payload : List Nat) (pos length : Nat)
    (hB : ∀ b ∈ payload, b < 256) (hin : pos + length ≤ payload.length) :
    ((∃ e, BeInt payload pos length = .error e) ↔
      0 < length ∧ payload.getD pos 0 = 0) ∧
    (length = 0 → BeInt payload pos length = .ok 0) ∧
    (∀ v : Int, BeInt payload pos length = .ok v →
      v = wrap64 ((beVal ((payload.drop pos).take length) : Nat) : Int) ∧
      (beVal ((payload.drop pos).take length) < 2 ^ 63 →
        v = ((beVal ((payload.drop pos).take length) : Nat) : Int))) := by
  refine ⟨⟨?_, ?_⟩, ?_, ?_⟩
  · rintro ⟨e, he⟩
    unfold BeInt at he
    by_cases h0 : 0 < length
    · rw [if_pos h0, if_pos (by omega : pos < payload.length)] at he
      by_cases hz : payload.getD pos 0 = 0
      · exact ⟨h0, hz⟩
      · rw [if_neg hz, if_pos hin] at he
        exact Except.noConfusion he
    · rw [if_neg h0, if_pos (by omega : pos ≤ payload.length)] at he
      exact Except.noConfusion he
  · rintro ⟨h0, hz⟩
    refine ⟨.leadingZero, ?_⟩
    unfold BeInt
    rw [if_pos h0, if_pos (by omega : pos < payload.length), if_pos hz, if_pos hin]
  · intro hl
    unfold BeInt
    rw [if_neg (by omega), if_pos (by omega)]
  · intro v hv
    rcases BeInt_ok_inv hv with ⟨h0, hin2, hnz, hval⟩ | ⟨hl0, hval⟩
    · subst hval
      have hwb : ∀ b ∈ (payload.drop pos).take length, b < 256 :=
        fun b hb => hB b (mem_of_mem_window hb)
      exact ⟨beFold_eq_wrap64 _ hwb, fun hsmall => beFold_eq_of_small _ hwb hsmall⟩
    · subst hval
      subst hl0
      rw [List.take_zero]
      exact ⟨by decide, fun _ => by decide⟩

/-- Witness for C4: the failure characterization evaluated on the window
`[0x00, 0x02]`, whose first byte is zero. -/
theorem beInt_characterization_witness :
    (∃ e, BeInt [0, 2] 0 2 = .error e) ↔
      (0 < 2 ∧ ([0, 2] : List Nat).getD 0 0 = 0) :=
  (beInt_characterization [0, 2] 0 2 (by decide) (by decide)).1

/-- C6 (amended): whenever `ParsePrefix` succeeds, `headerEnd ≥ position`
always holds, and `payloadLength ≥ 0` holds whenever the leading byte is
neither `191` nor `255` — i.e. except possibly for an 8-byte big-endian
length field, whose value can reach `2^63` and wrap the 64-bit signed
accumulator negative. -/
theorem prefixParse_invariants_amended (payload : List Nat) (pos p : Nat)
    (d : Int) (l : Bool) (hB : ∀ b ∈ payload, b < 256)
    (h : PrefixParse payload pos = .ok (p, d, l)) :
    pos ≤ p ∧
    (payload.getD pos 0 ≠ 191 → payload.getD pos 0 ≠ 255 → 0 ≤ d) := by
  obtain ⟨hp, hc⟩ := pp_ok_cases h
  have hbyte : payload.getD pos 0 < 256 := hB _ (getD_mem hp)
  rcases hc with ⟨h1, rfl, rfl, rfl⟩ | ⟨h1, h2, rfl, rfl, rfl⟩ |
    ⟨h1, h2, rfl, hbe, rfl⟩ | ⟨h1, h2, rfl, rfl, rfl⟩ | ⟨h1, rfl, hbe, rfl⟩
  · exact ⟨by omega, fun _ _ => by norm_num⟩
  · exact ⟨by omega, fun _ _ => by omega⟩
  · refine ⟨by omega, fun hne191 _ => ?_⟩
    rcases BeInt_ok_inv hbe with ⟨hl0, hin2, hnz, hval⟩ | ⟨hl0, hval⟩
    · subst hval
      have hwb : ∀ b ∈ (payload.drop (pos + 1)).take (payload.getD pos 0 - 183), b < 256 :=
        fun b hb => hB b (mem_of_mem_window hb)
      have hwlen : ((payload.drop (pos + 1)).take (payload.getD pos 0 - 183)).length ≤ 7 := by
        rw [List.length_take]
        omega
      have hsmall : beVal ((payload.drop (pos + 1)).take (payload.getD pos 0 - 183)) < 2 ^ 63 := by
        calc beVal ((payload.drop (pos + 1)).take (payload.getD pos 0 - 183))
            < 256 ^ ((payload.drop (pos + 1)).take (payload.getD pos 0 - 183)).length :=
              beVal_lt _ hwb
          _ ≤ 256 ^ 7 := Nat.pow_le_pow_right (by norm_num) hwlen
          _ < 2 ^ 63 := by norm_num
      rw [beFold_eq_of_small _ hwb hsmall]
      exact_mod_cast Nat.zero_le _
    · subst hval
      exact Int.le_refl 0
  · exact ⟨by omega, fun _ _ => by omega⟩
  · refine ⟨by omega, fun _ hne255 => ?_⟩
    rcases BeInt_ok_inv hbe with ⟨hl0, hin2, hnz, hval⟩ | ⟨hl0, hval⟩
    · subst hval
      have hwb : ∀ b ∈ (payload.drop (pos + 1)).take (payload.getD pos 0 - 247), b < 256 :=
        fun b hb => hB b (mem_of_mem_window hb)
      have hwlen : ((payload.drop (pos + 1)).take (payload.getD pos 0 - 247)).length ≤ 7 := by
        rw [List.length_take]
        omega
      have hsmall : beVal ((payload.drop (pos + 1)).take (payload.getD pos 0 - 247)) < 2 ^ 63 := by
        calc beVal ((payload.drop (pos + 1)).take (payload.getD pos 0 - 247))
            < 256 ^ ((payload.drop (pos + 1)).take (payload.getD pos 0 - 247)).length :=
              beVal_lt _ hwb
          _ ≤ 256 ^ 7 := Nat.pow_le_pow_right (by norm_num) hwlen
          _ < 2 ^ 63 := by norm_num
      rw [beFold_eq_of_small _ hwb hsmall]
      exact_mod_cast Nat.zero_le _
    · subst hval
      exact Int.le_refl 0

/-- Witness for C6 (amended): a long-string element `[0xB9 0x01 0x07]` with a
two-byte length field. -/
theorem prefixParse_invariants_amended_witness :
    (0 : Nat) ≤ 3 ∧
    (([185, 1, 7] : List Nat).getD 0 0 ≠ 191 →
      ([185, 1, 7] : List Nat).getD 0 0 ≠ 255 → (0 : Int) ≤ 263) :=
  prefixParse_invariants_amended [185, 1, 7] 0 3 263 false (by decide) (by decide)

theorem ensure_len (s : GoSlice) (size fid : Nat) :
    (ensureEnoughSize s size fid).len = size := by
  unfold ensureEnoughSize
  split <;> rfl

theorem ensure_of_le {s : GoSlice} {size : Nat} (fid : Nat) (h : size ≤ s.arr.length) :
    ensureEnoughSize s size fid = ⟨s.id, size, s.arr⟩ := by
  unfold ensureEnoughSize
  rw [if_neg (by omega)]

theorem ensure_of_lt {s : GoSlice} {size : Nat} (fid : Nat) (h : s.arr.length < size) :
    ensureEnoughSize s size fid = ⟨fid, size, List.replicate size 0⟩ := by
  unfold ensureEnoughSize
  rw [if_pos h]

theorem copy_len (dst : GoSlice) (src : List Nat) : (copyBytes dst src).len = dst.len := rfl

theorem copy_id (dst : GoSlice) (src : List Nat) : (copyBytes dst src).id = dst.id := rfl

theorem copy_full (D : GoSlice) (S : List Nat) (hD : D.len = 32) (hS : S.length = 32) :
    (copyBytes D S).data = S := by
  unfold copyBytes GoSlice.data
  simp only [hD, hS, Nat.min_self]
  rw [← hS, List.take_length, List.take_left]

theorem ParseHash_ok_unfold (payload : List Nat) (pos : Nat) (hashbuf : GoSlice)
    (freshId : Nat) (p : Nat) (d : Int) (isList : Bool)
    (hpp : PrefixParse payload pos = .ok (p, d, isList)) :
    ParseHash payload pos hashbuf freshId =
      (if isList then some (none, 0, some .hashNotString, hashbuf)
       else if (payload.length : Int) < (p : Int) + d then
         some (none, 0, some .hashEndOfPayload, hashbuf)
       else if d ≠ 32 then some (none, 0, some .hashLen, hashbuf)
       else
         some (some (copyBytes (ensureEnoughSize hashbuf 32 freshId)
             ((payload.drop p).take 32)),
           p + 32, none,
           if 32 ≤ hashbuf.arr.length then
             { hashbuf with arr := (copyBytes (ensureEnoughSize hashbuf 32 freshId)
                 ((payload.drop p).take 32)).arr }
           else hashbuf)) := by
  unfold ParseHash
  rw [hpp]

/-- Exhaustive description of a `ParseHash` run, by the outcome of the
prefix parse and the subsequent checks of the source. -/
theorem ParseHash_cases (payload : List Nat) (pos : Nat) (hashbuf : GoSlice)
    (freshId : Nat) :
    (∃ e, PrefixParse payload pos = .error e ∧
      ((e = .oob ∧ ParseHash payload pos hashbuf freshId = none) ∨
       (e ≠ .oob ∧ ParseHash payload pos hashbuf freshId =
         some (none, 0, some (.hashWrap e), hashbuf)))) ∨
    (∃ p d, PrefixParse payload pos = .ok (p, d, true) ∧
      ParseHash payload pos hashbuf freshId = some (none, 0, some .hashNotString, hashbuf)) ∨
    (∃ p d, PrefixParse payload pos = .ok (p, d, false) ∧
      (payload.length : Int) < (p : Int) + d ∧
      ParseHash payload pos hashbuf freshId = some (none, 0, some .hashEndOfPayload, hashbuf)) ∨
    (∃ p d, PrefixParse payload pos = .ok (p, d, false) ∧
      ¬ (payload.length : Int) < (p : Int) + d ∧ d ≠ 32 ∧
      ParseHash payload pos hashbuf freshId = some (none, 0, some .hashLen, hashbuf)) ∨
    (∃ p, PrefixParse payload pos = .ok (p, 32, false) ∧
      ¬ (payload.length : Int) < (p : Int) + 32 ∧
      ParseHash payload pos hashbuf freshId =
        some (some (copyBytes (ensureEnoughSize hashbuf 32 freshId)
            ((payload.drop p).take 32)),
          p + 32, none,
          if 32 ≤ hashbuf.arr.length then
            { hashbuf with arr := (copyBytes (ensureEnoughSize hashbuf 32 freshId)
                ((payload.drop p).take 32)).arr }
          else hashbuf)) := by
  cases hpp : PrefixParse payload pos with
  | error e =>
    left
    refine ⟨e, rfl, ?_⟩
    cases e <;>
      first
        | exact .inl ⟨rfl, by unfold ParseHash; rw [hpp]⟩
        | exact .inr ⟨fun hc => Err.noConfusion hc, by unfold ParseHash; rw [hpp]⟩
  | ok t =>
    obtain ⟨p, d, isList⟩ := t
    cases isList with
    | true =>
      refine .inr (.inl ⟨p, d, rfl, ?_⟩)
      rw [ParseHash_ok_unfold payload pos hashbuf freshId p d true hpp]
      rw [if_pos rfl]
    | false =>
      by_cases hover : (payload.length : Int) < (p : Int) + d
      · refine .inr (.inr (.inl ⟨p, d, rfl, hover, ?_⟩))
        rw [ParseHash_ok_unfold payload pos hashbuf freshId p d false hpp]
        rw [if_neg (show ¬(false = true) by decide), if_pos hover]
      · by_cases h32 : d ≠ 32
        · refine .inr (.inr (.inr (.inl ⟨p, d, rfl, hover, h32, ?_⟩)))
          rw [ParseHash_ok_unfold payload pos hashbuf freshId p d false hpp]
          rw [if_neg (show ¬(false = true) by decide), if_neg hover, if_pos h32]
        · have hd : d = 32 := by omega
          subst hd
          refine .inr (.inr (.inr (.inr ⟨p, rfl, hover, ?_⟩)))
          rw [ParseHash_ok_unfold payload pos hashbuf freshId p 32 false hpp]
          rw [if_neg (show ¬(false = true) by decide), if_neg hover,
            if_neg (show ¬((32 : Int) ≠ 32) by decide)]

theorem U64_ok_unfold (payload : List Nat) (pos p : Nat) (d : Int) (isList : Bool)
    (hpp : PrefixParse payload pos = .ok (p, d, isList)) :
    U64 payload pos =
      (if isList then .error .notString
       else if (payload.length : Int) ≤ (p : Int) + d then .error .endOfPayload
       else if 8 < d then .error .tooLarge
       else if 0 < d ∧ payload.getD p 0 = 0 then .error .leadingZero
       else if d < 0 then .error .oob
       else .ok (p + d.toNat, u64Fold ((payload.drop p).take d.toNat))) := by
  unfold U64
  rw [hpp]

/-- C9 counterexample: the buffer `[0xF8, 0x00]` has a list-kind leading byte
(`0xF8 ≥ 192`), yet `U64` fails with the leading-zero error propagated from
the length-field read, not with the wrong-element-kind error, and `ParseHash`
likewise propagates the wrapped prefix error instead of "hash must be a
string". -/
theorem u64_list_prefix_error_not_wrongKind :
    192 ≤ ([248, 0] : List Nat).getD 0 0 ∧
    U64 [248, 0] 0 = .error .leadingZero ∧
    Err.leadingZero ≠ Err.notString ∧
    ParseHash [248, 0] 0 ⟨3, 1, [9]⟩ 4 =
      some (none, 0, some (.hashWrap .leadingZero), ⟨3, 1, [9]⟩) := by
  refine ⟨by decide, by decide, by decide, by decide⟩

/-- C9 (amended): whenever the prefix parser itself succeeds and classifies
the element as list-kind, `U64` fails with the wrong-element-kind error
("must be a string") and `ParseHash` fails with its wrong-element-kind error
("hash must be a string"). -/
theorem listKind_rejected_by_u64_and_hash (payload : List Nat) (pos p : Nat)
    (d : Int) (h : PrefixParse payload pos = .ok (p, d, true)) :
    U64 payload pos = .error .notString ∧
    ∀ (hashbuf : GoSlice) (freshId : Nat),
      ParseHash payload pos hashbuf freshId =
        some (none, 0, some .hashNotString, hashbuf) := by
  constructor
  · rw [U64_ok_unfold payload pos p d true h, if_pos rfl]
  · intro buf fid
    rw [ParseHash_ok_unfold payload pos buf fid p d true h, if_pos rfl]

/-- Witness for C9 (amended): the short-list element `[0xC1, 0x05]`. -/
theorem listKind_rejected_by_u64_and_hash_witness :
    U64 [193, 5] 0 = .error .notString ∧
    ParseHash [193, 5] 0 ⟨1, 0, [2]⟩ 8 =
      some (none, 0, some .hashNotString, ⟨1, 0, [2]⟩) := by
  have h := listKind_rejected_by_u64_and_hash [193, 5] 0 1 1 (by decide)
  exact ⟨h.1, h.2 ⟨1, 0, [2]⟩ 8⟩

/-- C10: whenever `ParseHash` returns an error, the returned buffer is nil,
the returned position is 0, and the caller's output buffer is left untouched
(no write happens on any error path). -/
theorem parseHash_error_returns_nil_zero (payload : List Nat) (pos : Nat)
    (hashbuf : GoSlice) (freshId : Nat) (ret : Option GoSlice) (np : Nat)
    (e : Err) (aft : GoSlice)
    (h : ParseHash payload pos hashbuf freshId = some (ret, np, some e, aft)) :
    ret = none ∧ np = 0 ∧ aft = hashbuf := by
  rcases ParseHash_cases payload pos hashbuf freshId with
    ⟨e2, _, ⟨_, heq⟩ | ⟨_, heq⟩⟩ | ⟨p, d, _, heq⟩ | ⟨p, d, _, _, heq⟩ |
    ⟨p, d, _, _, _, heq⟩ | ⟨p, _, _, heq⟩
  · rw [heq] at h
    exact Option.noConfusion h
  · rw [heq] at h
    simp only [Option.some.injEq, Prod.mk.injEq] at h
    exact ⟨h.1.symm, h.2.1.symm, h.2.2.2.symm⟩
  · rw [heq] at h
    simp only [Option.some.injEq, Prod.mk.injEq] at h
    exact ⟨h.1.symm, h.2.1.symm, h.2.2.2.symm⟩
  · rw [heq] at h
    simp only [Option.some.injEq, Prod.mk.injEq] at h
    exact ⟨h.1.symm, h.2.1.symm, h.2.2.2.symm⟩
  · rw [heq] at h
    simp only [Option.some.injEq, Prod.mk.injEq] at h
    exact ⟨h.1.symm, h.2.1.symm, h.2.2.2.symm⟩
  · rw [heq] at h
    simp only [Option.some.injEq, Prod.mk.injEq] at h
    exact Option.noConfusion h.2.2.1

/-- Witness for C10: a hash-length failure on `[0x83, 1, 2, 3, 9]`. -/
theorem parseHash_error_returns_nil_zero_witness :
    (none : Option GoSlice) = none ∧ (0 : Nat) = 0 ∧
      (⟨2, 1, [4]⟩ : GoSlice) = ⟨2, 1, [4]⟩ :=
  parseHash_error_returns_nil_zero [131, 1, 2, 3, 9] 0 ⟨2, 1, [4]⟩ 7 none 0
    .hashLen ⟨2, 1, [4]⟩ (by decide)

/-- C7: after a successful string-kind prefix parse whose payload window fits
the buffer, `ParseHash` fails with the invalid-hash-length error whenever the
payload length is not exactly 32; when it is exactly 32 it succeeds, the
returned buffer's first 32 bytes are exactly the 32 payload bytes, and the
returned cursor is `headerEnd + 32`. -/
theorem parseHash_hash_length (payload : List Nat) (pos p : Nat) (d : Int)
    (hashbuf : GoSlice) (freshId : Nat)
    (hpp : PrefixParse payload pos = .ok (p, d, false))
    (hfit : (p : Int) + d ≤ (payload.length : Int)) :
    (d ≠ 32 → ParseHash payload pos hashbuf freshId =
      some (none, 0, some .hashLen, hashbuf)) ∧
    (d = 32 → ∃ out aft,
      ParseHash payload pos hashbuf freshId = some (some out, p + 32, none, aft) ∧
      out.len = 32 ∧ out.data = (payload.drop p).take 32) := by
  have hnover : ¬ (payload.length : Int) < (p : Int) + d := by omega
  constructor
  · intro hne
    rw [ParseHash_ok_unfold payload pos hashbuf freshId p d false hpp,
      if_neg (show ¬(false = true) by decide), if_neg hnover, if_pos hne]
  · intro h32
    subst h32
    refine ⟨copyBytes (ensureEnoughSize hashbuf 32 freshId) ((payload.drop p).take 32),
      if 32 ≤ hashbuf.arr.length then
        { hashbuf with arr := (copyBytes (ensureEnoughSize hashbuf 32 freshId)
            ((payload.drop p).take 32)).arr }
      else hashbuf, ?_, ?_, ?_⟩
    · rw [ParseHash_ok_unfold payload pos hashbuf freshId p 32 false hpp,
        if_neg (show ¬(false = true) by decide), if_neg hnover,
        if_neg (show ¬((32 : Int) ≠ 32) by decide)]
    · rw [copy_len, ensure_len]
    · refine copy_full _ _ (ensure_len _ _ _) ?_
      rw [List.length_take, List.length_drop]
      omega

/-- Witness for C7: a 32-byte string element `0xA0` followed by 32 payload
bytes. -/
theorem parseHash_hash_length_witness :
    ∃ out aft,
      ParseHash (160 :: List.replicate 32 7) 0 ⟨0, 0, []⟩ 1 =
        some (some out, 1 + 32, none, aft) ∧
      out.len = 32 ∧
      out.data = (((160 :: List.replicate 32 7) : List Nat).drop 1).take 32 :=
  (parseHash_hash_length (160 :: List.replicate 32 7) 0 1 32 ⟨0, 0, []⟩ 1
    (by decide) (by decide)).2 rfl

/-- C8: on a successful hash extraction, the returned buffer has length
exactly 32; if the caller's buffer had capacity at least 32 it is the very
same backing storage (same identity, same capacity), otherwise a fresh
32-byte backing array tagged `freshId` is returned; and in both cases all 32
exposed bytes are the copied payload bytes. -/
theorem parseHash_buffer_reuse (payload : List Nat) (pos : Nat) (hashbuf : GoSlice)
    (freshId : Nat) (out : GoSlice) (np : Nat) (aft : GoSlice)
    (h : ParseHash payload pos hashbuf freshId = some (some out, np, none, aft)) :
    out.len = 32 ∧
    (32 ≤ hashbuf.cap → out.id = hashbuf.id ∧ out.arr.length = hashbuf.cap) ∧
    (hashbuf.cap < 32 → out.id = freshId ∧ out.arr.length = 32) ∧
    ∃ p : Nat, PrefixParse payload pos = .ok (p, 32, false) ∧
      out.data = (payload.drop p).take 32 := by
  rcases ParseHash_cases payload pos hashbuf freshId with
    ⟨e2, _, ⟨_, heq⟩ | ⟨_, heq⟩⟩ | ⟨p, d, _, heq⟩ | ⟨p, d, _, _, heq⟩ |
    ⟨p, d, _, _, _, heq⟩ | ⟨p, hpp, hnover, heq⟩
  · rw [heq] at h
    exact Option.noConfusion h
  · rw [heq] at h
    simp only [Option.some.injEq, Prod.mk.injEq] at h
    exact Option.noConfusion h.1
  · rw [heq] at h
    simp only [Option.some.injEq, Prod.mk.injEq] at h
    exact Option.noConfusion h.1
  · rw [heq] at h
    simp only [Option.some.injEq, Prod.mk.injEq] at h
    exact Option.noConfusion h.1
  · rw [heq] at h
    simp only [Option.some.injEq, Prod.mk.injEq] at h
    exact Option.noConfusion h.1
  · rw [heq] at h
    simp only [Option.some.injEq, Prod.mk.injEq] at h
    obtain ⟨hout, hnp, haft⟩ := h
    subst hout
    have hsrc : ((payload.drop p).take 32).length = 32 := by
      rw [List.length_take, List.length_drop]
      omega
    refine ⟨?_, ?_, ?_, p, hpp, ?_⟩
    · rw [copy_len, ensure_len]
    · intro hcap
      have hcap' : 32 ≤ hashbuf.arr.length := hcap
      constructor
      · rw [copy_id, ensure_of_le freshId hcap']
      · rw [ensure_of_le freshId hcap']
        unfold copyBytes GoSlice.cap
        simp only [List.length_append, List.length_take, List.length_drop, hsrc]
        omega
    · intro hcap
      have hcap' : hashbuf.arr.length < 32 := hcap
      constructor
      · rw [copy_id, ensure_of_lt freshId hcap']
      · rw [ensure_of_lt freshId hcap']
        unfold copyBytes
        simp only [List.length_append, List.length_take, List.length_drop,
          List.length_replicate, hsrc]
        omega
    · exact copy_full _ _ (ensure_len _ _ _) hsrc

/-- Witness for C8: a reused buffer of capacity 40 (tag 5); the extraction
overwrites its first 32 bytes and keeps its backing array. -/
theorem parseHash_buffer_reuse_witness :
    (⟨5, 32, List.replicate 32 7 ++ List.replicate 8 9⟩ : GoSlice).len = 32 ∧
    (32 ≤ (⟨5, 3, List.replicate 40 9⟩ : GoSlice).cap →
      (⟨5, 32, List.replicate 32 7 ++ List.replicate 8 9⟩ : GoSlice).id =
        (⟨5, 3, List.replicate 40 9⟩ : GoSlice).id ∧
      (⟨5, 32, List.replicate 32 7 ++ List.replicate 8 9⟩ : GoSlice).arr.length =
        (⟨5, 3, List.replicate 40 9⟩ : GoSlice).cap) ∧
    ((⟨5, 3, List.replicate 40 9⟩ : GoSlice).cap < 32 →
      (⟨5, 32, List.replicate 32 7 ++ List.replicate 8 9⟩ : GoSlice).id = 6 ∧
      (⟨5, 32, List.replicate 32 7 ++ List.replicate 8 9⟩ : GoSlice).arr.length = 32) ∧
    ∃ p : Nat, PrefixParse (160 :: List.replicate 32 7) 0 = .ok (p, 32, false) ∧
      (⟨5, 32, List.replicate 32 7 ++ List.replicate 8 9⟩ : GoSlice).data =
        (((160 :: List.replicate 32 7) : List Nat).drop p).take 32 :=
  parseHash_buffer_reuse (160 :: List.replicate 32 7) 0 ⟨5, 3, List.replicate 40 9⟩ 6
    ⟨5, 32, List.replicate 32 7 ++ List.replicate 8 9⟩ 33
    ⟨5, 3, List.replicate 32 7 ++ List.replicate 8 9⟩ (by decide)

end Rlp
